import Mathlib

/-!
Verification of `scripts/linkify_inventory.py`: a one-pass markdown
"inventory linker" that rewrites file bullets into markdown links.

Lines are modelled as `List Char` (a Python `str` is a sequence of code
points).  The two regexes, the indentation bookkeeping, the directory
stack, path joining and the first-occurrence splice are each embedded as
executable Lean functions.  The filesystem collaborator (`os.path.exists`)
is modelled as a set of existing file paths plus a set of existing
directory paths; the check succeeds on either, as `os.path.exists` does.

The Python `dir_stack` list keeps its top at the *end*; here the stack is
a Lean list with the top at the *head*, so Python's `append` is `cons`
and the `while ... pop()` loop is `dropWhile`.  Reading the Python list
front-to-back (bottom-to-top) is reading ours back-to-front, hence the
`.reverse` when the path parts are collected.
-/

namespace LinkifyInventory

/-- Whitespace, as used by Python's `str.strip`, `str.lstrip` and the
regex class `\s` (restricted to the ASCII whitespace characters; the
inventory document is ASCII-indented markdown). -/
def isPySpace (c : Char) : Bool :=
  c = ' ' || c = '\t' || c = '\n' || c = '\r' || c = '\x0b' || c = '\x0c'

/-- Python `line.lstrip()`: drop leading whitespace. -/
def pyLstrip (l : List Char) : List Char :=
  l.dropWhile isPySpace

/-- Python `line.rstrip()`: drop trailing whitespace. -/
def pyRstrip (l : List Char) : List Char :=
  (l.reverse.dropWhile isPySpace).reverse

/-- Python `line.strip()`. -/
def pyStrip (l : List Char) : List Char :=
  pyRstrip (pyLstrip l)

/-- `indent = len(line) - len(line.lstrip())`: the count of leading
whitespace characters of the raw line. -/
def indentOf (l : List Char) : Nat :=
  l.length - (pyLstrip l).length

/-- Python `s.rstrip('/')`: drop all trailing `'/'` characters
(used on the captured directory name). -/
def rstripSlashes (l : List Char) : List Char :=
  (l.reverse.dropWhile (fun c => c = '/')).reverse

/-- `re.match(r'^-\s+\*\*([^\*]+)/?\*\*', stripped)`, returning
`group(1)` on success.  The greedy class `[^\*]+` swallows any `/`, so
the optional `/?` always matches empty and the capture is exactly the
maximal star-free run after the opening `**`, which must be nonempty and
be followed by `**`. -/
def dirMatch (s : List Char) : Option (List Char) :=
  match s with
  | [] => none
  | c :: s1 =>
    if c = '-' then
      if (s1.takeWhile isPySpace).isEmpty then none
      else
        match s1.dropWhile isPySpace with
        | a :: b :: s2 =>
          if a = '*' && b = '*' then
            let g := s2.takeWhile (fun x => !(x = '*'))
            if g.isEmpty then none
            else
              match s2.dropWhile (fun x => !(x = '*')) with
              | d :: e :: _ => if d = '*' && e = '*' then some g else none
              | _ => none
          else none
        | _ => none
    else none

/-- `re.match(r'^-\s+([^\s]+)\s+—', stripped)`, returning `group(1)` on
success: a `-`, at least one whitespace, a maximal nonempty
non-whitespace run (the token), at least one whitespace, then the
em-dash.  Backtracking cannot produce any other token: shortening either
greedy run would place the wrong character class next. -/
def fileMatch (s : List Char) : Option (List Char) :=
  match s with
  | [] => none
  | c :: s1 =>
    if c = '-' then
      if (s1.takeWhile isPySpace).isEmpty then none
      else
        let s2 := s1.dropWhile isPySpace
        let tok := s2.takeWhile (fun x => !isPySpace x)
        if tok.isEmpty then none
        else
          let s3 := s2.dropWhile (fun x => !isPySpace x)
          if (s3.takeWhile isPySpace).isEmpty then none
          else
            match s3.dropWhile isPySpace with
            | d :: _ => if d = '—' then some tok else none
            | [] => none
    else none

/-- One step of `os.path.join` for separator `sep`, for drive-letter-free
components: a component starting with the separator restarts the path;
otherwise the separator is inserted unless the accumulator is empty or
already ends with it. -/
def joinOne (sep : Char) (a b : List Char) : List Char :=
  if b.head? = some sep then b
  else if a.isEmpty then b
  else if a.getLast? = some sep then a ++ b
  else a ++ [sep] ++ b

/-- `os.path.join(*parts)` on a nonempty list of parts: fold
`joinOne` from the first part. -/
def joinList (sep : Char) : List (List Char) → List Char
  | [] => []
  | p :: ps => ps.foldl (joinOne sep) p

/-- `relative_path.replace('\\', '/')`: each backslash becomes a forward
slash. -/
def bslashToSlash (l : List Char) : List Char :=
  l.map (fun c => if c = '\\' then '/' else c)

/-- `hay.find(pat)` scanning from position `i`. -/
def pyFindAux (pat : List Char) : List Char → Nat → Option Nat
  | [], i => if pat.isPrefixOf [] then some i else none
  | c :: t, i => if pat.isPrefixOf (c :: t) then some i else pyFindAux pat t (i + 1)

/-- Python `hay.find(pat)`: index of the first occurrence of `pat` in
`hay`, `none` standing for Python's `-1`. -/
def pyFind (hay pat : List Char) : Option Nat :=
  pyFindAux pat hay 0

/-- The filesystem collaborator: the sets of existing regular files and
existing directories under observation. -/
structure FileSystem where
  files : List (List Char)
  dirs : List (List Char)

/-- `os.path.exists(p)`: true if `p` names an existing file *or* an
existing directory (a bare existence test, never a file-ness test). -/
def pathExists (fs : FileSystem) (p : List Char) : Bool :=
  fs.files.contains p || fs.dirs.contains p

/-- The run configuration: the platform path separator, the configured
root directory (`root_dir`) and the filesystem. -/
structure Config where
  sep : Char
  rootDir : List Char
  fs : FileSystem

/-- `while dir_stack and dir_stack[-1][0] >= indent: dir_stack.pop()`
(top of the stack at the head of the list). -/
def popStack (indent : Nat) (stack : List (Nat × List Char)) :
    List (Nat × List Char) :=
  stack.dropWhile (fun e => indent ≤ e.1)

/-- `relative_path = os.path.join(*current_path_parts, filename)`: the
names of the popped stack read bottom-to-top (Python list order, i.e.
our list reversed), then the filename. -/
def candidateRel (cfg : Config) (stack : List (Nat × List Char))
    (indent : Nat) (fn : List Char) : List Char :=
  joinList cfg.sep (((popStack indent stack).map Prod.snd).reverse ++ [fn])

/-- `full_path = os.path.join(root_dir, relative_path)`. -/
def candidateFull (cfg : Config) (stack : List (Nat × List Char))
    (indent : Nat) (fn : List Char) : List Char :=
  joinOne cfg.sep cfg.rootDir (candidateRel cfg stack indent fn)

/-- The result of one iteration of the main loop: the stack afterwards,
the single line appended to `new_lines`, and the diagnostic printed, if
any. -/
structure LineResult where
  stack : List (Nat × List Char)
  out : List Char
  diag : Option (List Char)

/-- One iteration of the `for line in lines` loop of
`linkify_inventory.py`: classify the line (directory first, then file,
then other), maintain the stack, resolve and existence-check the
candidate path, and rewrite the line when it resolves. -/
def processLine (cfg : Config) (stack : List (Nat × List Char))
    (line : List Char) : LineResult :=
  let indent := indentOf line
  let stripped := pyStrip line
  match dirMatch stripped with
  | some g =>
    let dirname := rstripSlashes g
    let popped := popStack indent stack
    ⟨(indent, dirname) :: popped, line, none⟩
  | none =>
    match fileMatch stripped with
    | some filename =>
      let popped := popStack indent stack
      let relativePath := candidateRel cfg stack indent filename
      let fullPath := joinOne cfg.sep cfg.rootDir relativePath
      if pathExists cfg.fs fullPath then
        let relFwd := bslashToSlash relativePath
        let newLine :=
          match pyFind line filename with
          | some idx =>
            line.take idx ++ ('[' :: filename) ++ (']' :: '(' :: relFwd)
              ++ (')' :: line.drop (idx + filename.length))
          | none =>
            -- Python's find returns -1 here, so prefix = line[:-1] and
            -- suffix = line[-1+len(filename):].  Provably unreachable:
            -- the captured token always occurs in the raw line.
            line.take (line.length - 1) ++ ('[' :: filename) ++ (']' :: '(' :: relFwd)
              ++ (')' :: line.drop (filename.length - 1))
        ⟨popped, newLine, none⟩
      else
        ⟨popped, line, some ("File not found: ".data ++ fullPath)⟩
    | none => ⟨stack, line, none⟩

/-- The whole loop: thread the stack through the lines, collecting the
output lines (exactly one per input line) and the diagnostics in order. -/
def linkLines (cfg : Config) (stack : List (Nat × List Char)) :
    List (List Char) → List (List Char) × List (List Char)
  | [] => ([], [])
  | l :: ls =>
    let r := processLine cfg stack l
    let rest := linkLines cfg r.stack ls
    (r.out :: rest.1, (match r.diag with | some d => [d] | none => []) ++ rest.2)

/-- The stack after processing `ls` starting from stack `st`. -/
def stackAfterFrom (cfg : Config) (st : List (Nat × List Char))
    (ls : List (List Char)) : List (Nat × List Char) :=
  ls.foldl (fun s l => (processLine cfg s l).stack) st

/-- A run of the whole program on a document: start from the empty
stack, return the rewritten document and the diagnostics. -/
def runLinker (cfg : Config) (lines : List (List Char)) :
    List (List Char) × List (List Char) :=
  linkLines cfg [] lines

/-- The stack invariant: indent levels strictly increase from bottom to
top; with the top at the head, each entry's indent exceeds the next
one's. -/
def StackOrdered (s : List (Nat × List Char)) : Prop :=
  List.Chain' (fun a b => b.1 < a.1) s

/-- The shape of a line the linker has already converted: optional
leading whitespace, the bullet, `[filename](path)`, then the em-dash
separator and the rest of the description. -/
def linkFormLine (ws fn path rest : List Char) : List Char :=
  ws ++ '-' :: ' ' :: '[' :: (fn ++ ']' :: '(' :: (path ++ ')' :: ' ' :: '—' :: rest))

/-- The token the file-line regex captures on a link-form line: the whole
`[filename](path)` text. -/
def linkFormTok (fn path : List Char) : List Char :=
  '[' :: (fn ++ ']' :: '(' :: (path ++ [')']))

/-! ### Helper lemmas -/

/-- `rstrip` keeps a prefix of its argument. -/
theorem pyRstrip_prefixOf (x : List Char) : pyRstrip x <+: x := by
  rw [← List.reverse_suffix]
  unfold pyRstrip
  rw [List.reverse_reverse]
  exact List.dropWhile_suffix _

/-- `strip` cuts a contiguous piece out of the middle of the line. -/
theorem pyStrip_split (l : List Char) : ∃ a b, l = a ++ pyStrip l ++ b := by
  have hsuf : pyLstrip l <:+ l := List.dropWhile_suffix _
  obtain ⟨a, ha⟩ := hsuf
  obtain ⟨b, hb⟩ := pyRstrip_prefixOf (pyLstrip l)
  refine ⟨a, b, ?_⟩
  have hb2 : pyStrip l ++ b = pyLstrip l := hb
  rw [List.append_assoc, hb2, ha]

theorem pyFindAux_none (pat : List Char) :
    ∀ (hay : List Char) (i : Nat), pyFindAux pat hay i = none →
      ∀ k, pat.isPrefixOf (hay.drop k) = false
  | [], i, h, k => by
    unfold pyFindAux at h
    simp only [List.drop_nil]
    cases hp : pat.isPrefixOf ([] : List Char) with
    | true => simp [hp] at h
    | false => rfl
  | c :: t, i, h, k => by
    unfold pyFindAux at h
    cases hp : pat.isPrefixOf (c :: t) with
    | true => simp [hp] at h
    | false =>
      match k with
      | 0 => exact hp
      | k' + 1 =>
        simp only [hp, Bool.false_eq_true, if_false] at h
        exact pyFindAux_none pat t (i + 1) h k'

theorem pyFindAux_some (pat : List Char) :
    ∀ (hay : List Char) (i j : Nat), pyFindAux pat hay i = some j →
      i ≤ j ∧ pat.isPrefixOf (hay.drop (j - i)) = true ∧
        ∀ k < j - i, pat.isPrefixOf (hay.drop k) = false
  | [], i, j, h => by
    unfold pyFindAux at h
    cases hp : pat.isPrefixOf ([] : List Char) with
    | true =>
      simp only [hp, if_true, Option.some.injEq] at h
      subst h
      refine ⟨le_refl i, ?_, ?_⟩
      · rw [Nat.sub_self]
        exact hp
      · intro k hk
        omega
    | false => simp [hp] at h
  | c :: t, i, j, h => by
    unfold pyFindAux at h
    cases hp : pat.isPrefixOf (c :: t) with
    | true =>
      simp only [hp, if_true, Option.some.injEq] at h
      subst h
      refine ⟨le_refl i, ?_, ?_⟩
      · rw [Nat.sub_self]
        exact hp
      · intro k hk
        omega
    | false =>
      simp only [hp, Bool.false_eq_true, if_false] at h
      obtain ⟨h1, h2, h3⟩ := pyFindAux_some pat t (i + 1) j h
      refine ⟨by omega, ?_, ?_⟩
      · have heq : j - i = (j - (i + 1)) + 1 := by omega
        rw [heq, List.drop_succ_cons]
        exact h2
      · intro k hk
        match k with
        | 0 => exact hp
        | k' + 1 =>
          rw [List.drop_succ_cons]
          exact h3 k' (by omega)

/-- The first-occurrence specification of Python `find`. -/
theorem pyFind_spec (hay pat : List Char) (j : Nat) (h : pyFind hay pat = some j) :
    pat.isPrefixOf (hay.drop j) = true ∧
      ∀ k < j, pat.isPrefixOf (hay.drop k) = false := by
  obtain ⟨_, h2, h3⟩ := pyFindAux_some pat hay 0 j h
  rw [Nat.sub_zero] at h2
  refine ⟨h2, fun k hk => h3 k (by omega)⟩

/-- `find` succeeds whenever an occurrence exists. -/
theorem pyFind_some_of_occurs (hay pat : List Char) (k : Nat)
    (h : pat.isPrefixOf (hay.drop k) = true) : ∃ j, pyFind hay pat = some j := by
  cases hf : pyFind hay pat with
  | none =>
    have hf2 := pyFindAux_none pat hay 0 hf k
    rw [h] at hf2
    exact Bool.noConfusion hf2
  | some j => exact ⟨j, rfl⟩

/-- An occurrence at `j` splits the haystack as `take j ++ pat ++ drop (j + |pat|)`. -/
theorem decomp_of_isPrefixOf (hay pat : List Char) (j : Nat)
    (h : pat.isPrefixOf (hay.drop j) = true) :
    hay = hay.take j ++ pat ++ hay.drop (j + pat.length) := by
  obtain ⟨t, ht⟩ := List.isPrefixOf_iff_prefix.1 h
  have hdrop : hay.drop (j + pat.length) = t := by
    have h2 : (pat ++ t).drop pat.length = t := List.drop_left pat t
    rw [ht] at h2
    rw [← h2, List.drop_drop]
  rw [List.append_assoc, hdrop, ht, List.take_append_drop]

/-- A successful file match is exactly the maximal non-whitespace run
after the bullet whitespace of the stripped line. -/
theorem fileMatch_eq (s fn : List Char) (h : fileMatch s = some fn) :
    ∃ s1, s = '-' :: s1 ∧
      fn = (s1.dropWhile isPySpace).takeWhile (fun x => !isPySpace x) := by
  cases s with
  | nil => simp [fileMatch] at h
  | cons c s1 =>
    simp only [fileMatch] at h
    by_cases hc : c = '-'
    · subst hc
      rw [if_pos rfl] at h
      by_cases h1 : (s1.takeWhile isPySpace).isEmpty = true
      · simp [h1] at h
      · simp only [h1, Bool.false_eq_true, if_false] at h
        by_cases h2 : ((s1.dropWhile isPySpace).takeWhile (fun x => !isPySpace x)).isEmpty = true
        · simp [h2] at h
        · simp only [h2, Bool.false_eq_true, if_false] at h
          by_cases h3 : ((((s1.dropWhile isPySpace)).dropWhile
              (fun x => !isPySpace x)).takeWhile isPySpace).isEmpty = true
          · simp [h3] at h
          · simp only [h3, Bool.false_eq_true, if_false] at h
            cases h4 : ((s1.dropWhile isPySpace).dropWhile
                (fun x => !isPySpace x)).dropWhile isPySpace with
            | nil => simp [h4] at h
            | cons d t =>
              simp only [h4] at h
              by_cases h5 : d = '—'
              · subst h5
                rw [if_pos rfl] at h
                injection h with h6
                exact ⟨s1, rfl, h6.symm⟩
              · simp [h5] at h
    · simp [hc] at h

/-- The captured filename occurs contiguously inside the matched string. -/
theorem fileMatch_occurs (s fn : List Char) (h : fileMatch s = some fn) :
    ∃ u v, s = u ++ fn ++ v := by
  obtain ⟨s1, rfl, hfn⟩ := fileMatch_eq s fn h
  refine ⟨'-' :: s1.takeWhile isPySpace,
    (s1.dropWhile isPySpace).dropWhile (fun x => !isPySpace x), ?_⟩
  rw [hfn]
  simp only [List.cons_append, List.append_assoc, List.cons.injEq, true_and]
  rw [List.takeWhile_append_dropWhile, List.takeWhile_append_dropWhile]

/-- When the stripped line is a file line, Python `line.find(filename)`
succeeds on the raw line. -/
theorem fileMatch_line_occurs (line fn : List Char)
    (h : fileMatch (pyStrip line) = some fn) : ∃ j, pyFind line fn = some j := by
  obtain ⟨u, v, huv⟩ := fileMatch_occurs _ _ h
  obtain ⟨a, b, hab⟩ := pyStrip_split line
  have hline : line = (a ++ u) ++ (fn ++ (v ++ b)) := by
    rw [hab, huv]
    simp [List.append_assoc]
  have hpre : fn.isPrefixOf (line.drop (a ++ u).length) = true := by
    rw [hline, List.drop_left]
    exact List.isPrefixOf_iff_prefix.2 ⟨v ++ b, rfl⟩
  exact pyFind_some_of_occurs _ _ _ hpre

/-! ### Stack lemmas -/

theorem popStack_head_lt (n : Nat) :
    ∀ (s : List (Nat × List Char)) (e : Nat × List Char),
      (popStack n s).head? = some e → e.1 < n
  | [], e, h => by simp [popStack] at h
  | x :: t, e, h => by
    unfold popStack at h
    rw [List.dropWhile_cons] at h
    by_cases hx : n ≤ x.1
    · rw [if_pos (decide_eq_true hx)] at h
      exact popStack_head_lt n t e h
    · rw [if_neg (by simpa using hx)] at h
      simp only [List.head?_cons, Option.some.injEq] at h
      subst h
      omega

theorem chain_mem_lt :
    ∀ (x : Nat × List Char) (t : List (Nat × List Char)),
      List.Chain' (fun a b => b.1 < a.1) (x :: t) → ∀ e ∈ t, e.1 < x.1
  | _, [], _, e, he => by simp at he
  | x, y :: t, h, e, he => by
    rw [List.chain'_cons] at h
    obtain ⟨hxy, hyt⟩ := h
    rcases List.mem_cons.1 he with rfl | he'
    · exact hxy
    · exact lt_trans (chain_mem_lt y t hyt e he') hxy

theorem stackOrdered_popStack (n : Nat) (s : List (Nat × List Char))
    (h : StackOrdered s) : StackOrdered (popStack n s) :=
  List.Chain'.suffix h (List.dropWhile_suffix _)

/-- On an ordered stack, popping at `n` removes *every* entry of indent
at least `n`: all the survivors are strictly shallower. -/
theorem popStack_mem_lt (n : Nat) :
    ∀ (s : List (Nat × List Char)), StackOrdered s →
      ∀ e ∈ popStack n s, e.1 < n
  | [], _, e, he => by simp [popStack] at he
  | x :: t, h, e, he => by
    unfold popStack at he
    rw [List.dropWhile_cons] at he
    by_cases hx : n ≤ x.1
    · rw [if_pos (decide_eq_true hx)] at he
      exact popStack_mem_lt n t (List.chain'_cons'.1 h).2 e he
    · rw [if_neg (by simpa using hx)] at he
      rcases List.mem_cons.1 he with rfl | he'
      · omega
      · exact lt_trans (chain_mem_lt x t h e he') (by omega)

/-! ### Branch lemmas for `processLine` -/

theorem processLine_dir (cfg : Config) (stack : List (Nat × List Char))
    (line g : List Char) (h : dirMatch (pyStrip line) = some g) :
    processLine cfg stack line =
      ⟨(indentOf line, rstripSlashes g) :: popStack (indentOf line) stack,
        line, none⟩ := by
  simp only [processLine, h]

theorem processLine_other (cfg : Config) (stack : List (Nat × List Char))
    (line : List Char) (hd : dirMatch (pyStrip line) = none)
    (hf : fileMatch (pyStrip line) = none) :
    processLine cfg stack line = ⟨stack, line, none⟩ := by
  simp only [processLine, hd, hf]

theorem processLine_file_missing (cfg : Config) (stack : List (Nat × List Char))
    (line fn : List Char) (hd : dirMatch (pyStrip line) = none)
    (hf : fileMatch (pyStrip line) = some fn)
    (hex : pathExists cfg.fs (candidateFull cfg stack (indentOf line) fn) = false) :
    processLine cfg stack line =
      ⟨popStack (indentOf line) stack, line,
        some ("File not found: ".data ++ candidateFull cfg stack (indentOf line) fn)⟩ := by
  simp only [processLine, hd, hf, candidateFull] at *
  simp [hex]

theorem processLine_file_found (cfg : Config) (stack : List (Nat × List Char))
    (line fn : List Char) (idx : Nat) (hd : dirMatch (pyStrip line) = none)
    (hf : fileMatch (pyStrip line) = some fn)
    (hex : pathExists cfg.fs (candidateFull cfg stack (indentOf line) fn) = true)
    (hidx : pyFind line fn = some idx) :
    processLine cfg stack line =
      ⟨popStack (indentOf line) stack,
        line.take idx ++ ('[' :: fn)
          ++ (']' :: '(' :: bslashToSlash (candidateRel cfg stack (indentOf line) fn))
          ++ (')' :: line.drop (idx + fn.length)), none⟩ := by
  simp only [processLine, hd, hf, candidateFull] at *
  simp [hex, hidx]

theorem stackOrdered_processLine (cfg : Config) (stack : List (Nat × List Char))
    (line : List Char) (h : StackOrdered stack) :
    StackOrdered (processLine cfg stack line).stack := by
  cases hd : dirMatch (pyStrip line) with
  | some g =>
    rw [processLine_dir cfg stack line g hd]
    refine List.chain'_cons'.2 ⟨?_, stackOrdered_popStack _ _ h⟩
    intro y hy
    exact popStack_head_lt _ _ y (Option.mem_def.1 hy)
  | none =>
    cases hf : fileMatch (pyStrip line) with
    | some fn =>
      cases hex : pathExists cfg.fs (candidateFull cfg stack (indentOf line) fn) with
      | true =>
        obtain ⟨j, hj⟩ := fileMatch_line_occurs line fn hf
        rw [processLine_file_found cfg stack line fn j hd hf hex hj]
        exact stackOrdered_popStack _ _ h
      | false =>
        rw [processLine_file_missing cfg stack line fn hd hf hex]
        exact stackOrdered_popStack _ _ h
    | none =>
      rw [processLine_other cfg stack line hd hf]
      exact h

theorem stackOrdered_stackAfterFrom (cfg : Config) :
    ∀ (ls : List (List Char)) (st : List (Nat × List Char)),
      StackOrdered st → StackOrdered (stackAfterFrom cfg st ls)
  | [], _, h => h
  | l :: ls, st, h =>
    stackOrdered_stackAfterFrom cfg ls _ (stackOrdered_processLine cfg st l h)

theorem linkLines_len (cfg : Config) :
    ∀ (stack : List (Nat × List Char)) (ls : List (List Char)),
      ((linkLines cfg stack ls).1).length = ls.length
  | _, [] => rfl
  | stack, l :: ls => by
    show ((processLine cfg stack l).out
        :: (linkLines cfg (processLine cfg stack l).stack ls).1).length = _
    rw [List.length_cons, linkLines_len cfg _ ls, List.length_cons]

theorem linkLines_getElem (cfg : Config) :
    ∀ (stack : List (Nat × List Char)) (ls : List (List Char)) (i : Nat),
      ((linkLines cfg stack ls).1)[i]? =
        (ls[i]?).map (fun l =>
          (processLine cfg (stackAfterFrom cfg stack (ls.take i)) l).out)
  | _, [], i => by simp [linkLines]
  | stack, l :: ls, 0 => by
    show ((processLine cfg stack l).out
        :: (linkLines cfg (processLine cfg stack l).stack ls).1)[0]? = _
    simp only [List.getElem?_cons_zero, Option.map_some']
    rfl
  | stack, l :: ls, i + 1 => by
    show ((processLine cfg stack l).out
        :: (linkLines cfg (processLine cfg stack l).stack ls).1)[i + 1]? = _
    rw [List.getElem?_cons_succ, List.getElem?_cons_succ, List.take_succ_cons]
    exact linkLines_getElem cfg _ ls i

theorem fileMatch_shape (sp tok sp2 tail : List Char)
    (hsp : ∀ c ∈ sp, isPySpace c = true) (hspn : sp ≠ [])
    (htok : ∀ c ∈ tok, isPySpace c = false) (htokn : tok ≠ [])
    (hsp2 : ∀ c ∈ sp2, isPySpace c = true) (hsp2n : sp2 ≠ []) :
    fileMatch ('-' :: (sp ++ (tok ++ (sp2 ++ '—' :: tail)))) = some tok := by
  obtain ⟨a, sp1, rfl⟩ := List.exists_cons_of_ne_nil hspn
  obtain ⟨t0, tok1, rfl⟩ := List.exists_cons_of_ne_nil htokn
  obtain ⟨b, sp3, rfl⟩ := List.exists_cons_of_ne_nil hsp2n
  have hpa : isPySpace a = true := hsp a (List.mem_cons_self a sp1)
  have hpt : isPySpace t0 = false := htok t0 (List.mem_cons_self t0 tok1)
  have hpb : isPySpace b = true := hsp2 b (List.mem_cons_self b sp3)
  have htokq : ∀ c ∈ t0 :: tok1, (!isPySpace c) = true := by
    intro c hc
    rw [htok c hc]
    rfl
  simp only [fileMatch]
  rw [if_true]
  have hfirst : (List.takeWhile isPySpace
      ((a :: sp1) ++ (t0 :: tok1 ++ (b :: sp3 ++ '—' :: tail)))).isEmpty = false := by
    rw [List.takeWhile_append_of_pos hsp, List.cons_append]
    rfl
  have hA : List.dropWhile isPySpace ((a :: sp1) ++ (t0 :: tok1 ++ (b :: sp3 ++ '—' :: tail)))
      = t0 :: (tok1 ++ (b :: sp3 ++ '—' :: tail)) := by
    rw [List.dropWhile_append_of_pos hsp, List.cons_append, List.dropWhile_cons,
      if_neg (by rw [hpt]; exact Bool.false_ne_true)]
  have hq : List.takeWhile (fun x => !isPySpace x) ((b :: sp3) ++ '—' :: tail) = [] := by
    rw [List.cons_append, List.takeWhile_cons, if_neg (by rw [hpb]; decide)]
  have hT : List.takeWhile (fun x => !isPySpace x) (t0 :: (tok1 ++ (b :: sp3 ++ '—' :: tail)))
      = t0 :: tok1 := by
    rw [← List.cons_append, List.takeWhile_append_of_pos htokq, hq, List.append_nil]
  have hqD : List.dropWhile (fun x => !isPySpace x) ((b :: sp3) ++ '—' :: tail)
      = b :: (sp3 ++ '—' :: tail) := by
    rw [List.cons_append, List.dropWhile_cons, if_neg (by rw [hpb]; decide)]
  have hD : List.dropWhile (fun x => !isPySpace x) (t0 :: (tok1 ++ (b :: sp3 ++ '—' :: tail)))
      = b :: (sp3 ++ '—' :: tail) := by
    rw [← List.cons_append, List.dropWhile_append_of_pos htokq, hqD]
  have hTW2 : (List.takeWhile isPySpace (b :: (sp3 ++ '—' :: tail))).isEmpty = false := by
    rw [List.takeWhile_cons, if_pos hpb]
    rfl
  have hDW2 : List.dropWhile isPySpace (b :: (sp3 ++ '—' :: tail)) = '—' :: tail := by
    rw [← List.cons_append, List.dropWhile_append_of_pos hsp2, List.dropWhile_cons,
      if_neg (by decide)]
  rw [hfirst, hA, hT, hD, hTW2, hDW2]
  simp only [List.isEmpty_cons, Bool.false_eq_true, if_false]
  rfl

theorem dirMatch_none_of_shape (sp tail : List Char) (d : Char)
    (hsp : ∀ c ∈ sp, isPySpace c = true) (hspn : sp ≠ [])
    (hd : isPySpace d = false) (hds : d ≠ '*') :
    dirMatch ('-' :: (sp ++ d :: tail)) = none := by
  obtain ⟨a, sp1, rfl⟩ := List.exists_cons_of_ne_nil hspn
  simp only [dirMatch]
  rw [if_true]
  have hfirst : (List.takeWhile isPySpace ((a :: sp1) ++ d :: tail)).isEmpty = false := by
    rw [List.takeWhile_append_of_pos hsp, List.cons_append]
    rfl
  have hA : List.dropWhile isPySpace ((a :: sp1) ++ d :: tail) = d :: tail := by
    rw [List.dropWhile_append_of_pos hsp, List.dropWhile_cons,
      if_neg (by rw [hd]; exact Bool.false_ne_true)]
  rw [hfirst, hA]
  simp only [Bool.false_eq_true, if_false]
  cases tail with
  | nil => rfl
  | cons e t2 =>
    simp only [decide_eq_false hds, Bool.false_and, Bool.false_eq_true, if_false]

theorem pyRstrip_append_keep (x y : List Char) (c : Char) (hc : isPySpace c = false) :
    pyRstrip (x ++ c :: y) = x ++ c :: pyRstrip y := by
  unfold pyRstrip
  rw [List.reverse_append, List.reverse_cons, List.append_assoc, List.singleton_append,
    List.dropWhile_append]
  cases hy : y.reverse.dropWhile isPySpace with
  | nil =>
    simp only [hy, List.isEmpty_nil, if_true, List.dropWhile_cons, hc, Bool.false_eq_true,
      if_false, List.reverse_cons, List.reverse_reverse, List.reverse_nil, List.append_nil]
  | cons e t =>
    simp only [hy, List.isEmpty_cons, Bool.false_eq_true, if_false, List.reverse_append,
      List.reverse_cons, List.reverse_reverse, List.append_assoc, List.nil_append,
      List.cons_append, List.singleton_append]

theorem pyStrip_linkline (ws fn path rest : List Char)
    (hws : ∀ c ∈ ws, isPySpace c = true) :
    pyStrip (ws ++ '-' :: ' ' :: '[' :: (fn ++ ']' :: '(' :: (path ++ ')' :: ' ' :: '—' :: rest)))
      = '-' :: ' ' :: '[' :: (fn ++ ']' :: '(' :: (path ++ ')' :: ' ' :: '—' :: pyRstrip rest)) := by
  unfold pyStrip
  have hl : pyLstrip (ws ++ '-' :: ' ' :: '[' :: (fn ++ ']' :: '(' :: (path ++ ')' :: ' ' :: '—' :: rest)))
      = '-' :: ' ' :: '[' :: (fn ++ ']' :: '(' :: (path ++ ')' :: ' ' :: '—' :: rest)) := by
    unfold pyLstrip
    rw [List.dropWhile_append_of_pos hws, List.dropWhile_cons, if_neg (by decide)]
  rw [hl]
  have hshape : '-' :: ' ' :: '[' :: (fn ++ ']' :: '(' :: (path ++ ')' :: ' ' :: '—' :: rest))
      = ('-' :: ' ' :: '[' :: (fn ++ ']' :: '(' :: (path ++ [')', ' ']))) ++ '—' :: rest := by
    simp [List.cons_append, List.append_assoc]
  rw [hshape, pyRstrip_append_keep _ _ _ (by decide)]
  simp [List.cons_append, List.append_assoc]

theorem bslashToSlash_no_bslash (l : List Char) :
    ∀ c ∈ bslashToSlash l, c ≠ '\\' := by
  intro c hc
  obtain ⟨x, _, rfl⟩ := List.mem_map.1 hc
  by_cases h : x = '\\'
  · simp [h]
  · simp only [if_neg h]
    exact h

/-! ### The claims -/

/-- C1: a file line whose candidate path exists is rewritten by splicing
`[filename](relative/path)` in place of the filename occurrence, the
emitted relative path containing no backslash whatever the platform
separator; in particular the nested `core/` / `models/` / `Order.java`
scenario emits the link path `core/models/Order.java` under either
separator. -/
theorem C1_file_line_rewritten :
    (∀ (cfg : Config) (stack : List (Nat × List Char)) (line fn : List Char),
      dirMatch (pyStrip line) = none →
      fileMatch (pyStrip line) = some fn →
      pathExists cfg.fs (candidateFull cfg stack (indentOf line) fn) = true →
      ∃ p s, line = p ++ fn ++ s ∧
        (processLine cfg stack line).out =
          p ++ ('[' :: fn) ++ (']' :: '(' ::
            bslashToSlash (candidateRel cfg stack (indentOf line) fn)) ++ (')' :: s) ∧
        ∀ c ∈ bslashToSlash (candidateRel cfg stack (indentOf line) fn), c ≠ '\\') ∧
    (∀ sep : Char, sep = '/' ∨ sep = '\\' →
      (runLinker ⟨sep, "root".data,
          ⟨[joinOne sep "root".data
              (joinList sep ["core".data, "models".data, "Order.java".data])], []⟩⟩
        ["- **core/**".data, "  - **models/**".data, "    - Order.java — entity".data]).1 =
      ["- **core/**".data, "  - **models/**".data,
        "    - [Order.java](core/models/Order.java) — entity".data]) := by
  constructor
  · intro cfg stack line fn hd hf hex
    obtain ⟨j, hj⟩ := fileMatch_line_occurs line fn hf
    obtain ⟨hpre, -⟩ := pyFind_spec line fn j hj
    refine ⟨line.take j, line.drop (j + fn.length),
      decomp_of_isPrefixOf line fn j hpre, ?_, bslashToSlash_no_bslash _⟩
    rw [processLine_file_found cfg stack line fn j hd hf hex hj]
  · rintro sep (rfl | rfl) <;> decide

/-- C1 witness: a concrete file line under an open `core/` directory. -/
theorem C1_file_line_rewritten_witness :
    ∃ p s, "  - User.java — model".data = p ++ "User.java".data ++ s ∧
      (processLine ⟨'/', "root".data, ⟨["root/core/User.java".data], []⟩⟩
        [(0, "core".data)] "  - User.java — model".data).out =
        p ++ ('[' :: "User.java".data) ++ (']' :: '(' ::
          bslashToSlash (candidateRel ⟨'/', "root".data, ⟨["root/core/User.java".data], []⟩⟩
            [(0, "core".data)] (indentOf "  - User.java — model".data) "User.java".data))
          ++ (')' :: s) ∧
      ∀ c ∈ bslashToSlash (candidateRel ⟨'/', "root".data, ⟨["root/core/User.java".data], []⟩⟩
          [(0, "core".data)] (indentOf "  - User.java — model".data) "User.java".data),
        c ≠ '\\' :=
  C1_file_line_rewritten.1 ⟨'/', "root".data, ⟨["root/core/User.java".data], []⟩⟩
    [(0, "core".data)] "  - User.java — model".data "User.java".data
    (by decide) (by decide) (by decide)

/-- C2: a file line whose candidate path does not exist is left exactly
as it was, a `File not found: <path>` diagnostic is emitted, and the run
continues with the remaining lines. -/
theorem C2_missing_file_kept :
    ∀ (cfg : Config) (stack : List (Nat × List Char)) (line fn : List Char)
      (rest : List (List Char)),
      dirMatch (pyStrip line) = none →
      fileMatch (pyStrip line) = some fn →
      pathExists cfg.fs (candidateFull cfg stack (indentOf line) fn) = false →
      (processLine cfg stack line).out = line ∧
      (processLine cfg stack line).diag =
        some ("File not found: ".data ++ candidateFull cfg stack (indentOf line) fn) ∧
      (linkLines cfg stack (line :: rest)).1 =
        line :: (linkLines cfg (popStack (indentOf line) stack) rest).1 := by
  intro cfg stack line fn rest hd hf hex
  have hp := processLine_file_missing cfg stack line fn hd hf hex
  refine ⟨by rw [hp], by rw [hp], ?_⟩
  show ((processLine cfg stack line).out
      :: (linkLines cfg (processLine cfg stack line).stack rest).1) = _
  rw [hp]

/-- C2 witness: `ghost.txt` is missing at the root, the line survives
byte-for-byte and the diagnostic names the full candidate path. -/
theorem C2_missing_file_kept_witness :
    (processLine ⟨'/', "root".data, ⟨[], []⟩⟩ [] "- ghost.txt — nothing".data).out
      = "- ghost.txt — nothing".data :=
  (C2_missing_file_kept ⟨'/', "root".data, ⟨[], []⟩⟩ [] "- ghost.txt — nothing".data
    "ghost.txt".data [] (by decide) (by decide) (by decide)).1

/-- C3: the directory context stack always has strictly increasing
indent levels from bottom to top: one loop iteration preserves the
invariant, and it holds after any run prefix starting from the empty
stack. -/
theorem C3_stack_strictly_ordered :
    (∀ (cfg : Config) (stack : List (Nat × List Char)) (line : List Char),
      StackOrdered stack → StackOrdered (processLine cfg stack line).stack) ∧
    (∀ (cfg : Config) (lines : List (List Char)),
      StackOrdered (stackAfterFrom cfg [] lines)) :=
  ⟨stackOrdered_processLine, fun cfg lines =>
    stackOrdered_stackAfterFrom cfg lines [] List.chain'_nil⟩

/-- C3 witness: processing a nested directory line on a singleton stack
keeps the invariant. -/
theorem C3_stack_strictly_ordered_witness :
    StackOrdered (processLine ⟨'/', "root".data, ⟨[], []⟩⟩ [(0, "core".data)]
      "  - **models/**".data).stack :=
  C3_stack_strictly_ordered.1 ⟨'/', "root".data, ⟨[], []⟩⟩ [(0, "core".data)]
    "  - **models/**".data (List.chain'_singleton _)

/-- C4: a directory line at indent `X` pops every open directory of
indent at least `X`, siblings included: afterwards every stack entry is
the new directory or strictly shallower than `X`; concretely, a file
after two sibling directories resolves under the second even though it
also exists under the first. -/
theorem C4_dir_pops_siblings :
    (∀ (cfg : Config) (stack : List (Nat × List Char)) (line g : List Char),
      StackOrdered stack → dirMatch (pyStrip line) = some g →
      ∀ e ∈ (processLine cfg stack line).stack,
        e = (indentOf line, rstripSlashes g) ∨ e.1 < indentOf line) ∧
    (runLinker ⟨'/', "root".data, ⟨["root/a/f.txt".data, "root/b/f.txt".data], []⟩⟩
      ["- **a/**".data, "- **b/**".data, "  - f.txt — x".data]).1 =
      ["- **a/**".data, "- **b/**".data, "  - [f.txt](b/f.txt) — x".data] := by
  constructor
  · intro cfg stack line g hord hdir e he
    rw [processLine_dir cfg stack line g hdir] at he
    rcases List.mem_cons.1 he with rfl | he'
    · exact Or.inl rfl
    · exact Or.inr (popStack_mem_lt _ _ hord e he')
  · decide

/-- C4 witness: a sibling directory line at indent 0 pops the open
sibling `(0, a)`. -/
theorem C4_dir_pops_siblings_witness :
    ∀ e ∈ (processLine ⟨'/', "root".data, ⟨[], []⟩⟩ [(0, "a".data)] "- **b/**".data).stack,
      e = (indentOf "- **b/**".data, rstripSlashes "b/".data) ∨
        e.1 < indentOf "- **b/**".data :=
  C4_dir_pops_siblings.1 ⟨'/', "root".data, ⟨[], []⟩⟩ [(0, "a".data)] "- **b/**".data
    "b/".data (List.chain'_singleton _) (by decide)

/-- C5: a line matching neither bullet shape is passed through
byte-for-byte, with no stack effect and no diagnostic. -/
theorem C5_other_line_passthrough :
    ∀ (cfg : Config) (stack : List (Nat × List Char)) (line : List Char),
      dirMatch (pyStrip line) = none → fileMatch (pyStrip line) = none →
      processLine cfg stack line = ⟨stack, line, none⟩ :=
  fun cfg stack line hd hf => processLine_other cfg stack line hd hf

/-- C5 witness: a markdown heading is untouched. -/
theorem C5_other_line_passthrough_witness :
    processLine ⟨'/', "root".data, ⟨[], []⟩⟩ [(3, "x".data)] "# Heading".data
      = ⟨[(3, "x".data)], "# Heading".data, none⟩ :=
  C5_other_line_passthrough ⟨'/', "root".data, ⟨[], []⟩⟩ [(3, "x".data)]
    "# Heading".data (by decide) (by decide)

/-- C6: a line already in link form is matched again by the file-line
regex (with the whole `[filename](path)` text as token), and is left
unchanged whenever that token's candidate path does not exist — the
only way a second run could change it is that very path existing. -/
theorem C6_idempotent_unless_relinked :
    ∀ (cfg : Config) (stack : List (Nat × List Char)) (ws fn path rest : List Char),
      (∀ c ∈ ws, isPySpace c = true) →
      (∀ c ∈ fn, isPySpace c = false) →
      (∀ c ∈ path, isPySpace c = false) →
      fileMatch (pyStrip (linkFormLine ws fn path rest)) = some (linkFormTok fn path) ∧
      (pathExists cfg.fs (candidateFull cfg stack (indentOf (linkFormLine ws fn path rest))
          (linkFormTok fn path)) = false →
        (processLine cfg stack (linkFormLine ws fn path rest)).out
          = linkFormLine ws fn path rest) := by
  intro cfg stack ws fn path rest hws hfn hpath
  have hps := pyStrip_linkline ws fn path rest hws
  have htok : ∀ c ∈ linkFormTok fn path, isPySpace c = false := by
    intro c hc
    simp only [linkFormTok, List.mem_cons, List.mem_append, List.mem_singleton] at hc
    rcases hc with rfl | hfn2 | rfl | rfl | hp2 | rfl | h0
    · decide
    · exact hfn c hfn2
    · decide
    · decide
    · exact hpath c hp2
    · decide
    · simp at h0
  have hsp1 : ∀ c ∈ ([' '] : List Char), isPySpace c = true := by
    intro c hc
    rw [List.mem_singleton] at hc
    subst hc
    decide
  have hts : '-' :: ' ' :: '[' :: (fn ++ ']' :: '(' :: (path ++ ')' :: ' ' :: '—' :: pyRstrip rest))
      = '-' :: (([' '] : List Char) ++ (linkFormTok fn path
          ++ (([' '] : List Char) ++ '—' :: pyRstrip rest))) := by
    simp [linkFormTok, List.cons_append, List.append_assoc]
  have hfm : fileMatch (pyStrip (linkFormLine ws fn path rest)) = some (linkFormTok fn path) := by
    rw [show pyStrip (linkFormLine ws fn path rest)
        = pyStrip (ws ++ '-' :: ' ' :: '[' :: (fn ++ ']' :: '(' ::
            (path ++ ')' :: ' ' :: '—' :: rest))) from rfl,
      hps, hts]
    exact fileMatch_shape [' '] (linkFormTok fn path) [' '] (pyRstrip rest)
      hsp1 (by simp) htok (by simp [linkFormTok]) hsp1 (by simp)
  have hts2 : '-' :: ' ' :: '[' :: (fn ++ ']' :: '(' :: (path ++ ')' :: ' ' :: '—' :: pyRstrip rest))
      = '-' :: (([' '] : List Char) ++ '[' :: (fn ++ ']' :: '(' ::
          (path ++ ')' :: ' ' :: '—' :: pyRstrip rest))) := by
    simp
  have hdm : dirMatch (pyStrip (linkFormLine ws fn path rest)) = none := by
    rw [show pyStrip (linkFormLine ws fn path rest)
        = pyStrip (ws ++ '-' :: ' ' :: '[' :: (fn ++ ']' :: '(' ::
            (path ++ ')' :: ' ' :: '—' :: rest))) from rfl,
      hps, hts2]
    exact dirMatch_none_of_shape [' '] _ '[' hsp1 (by simp) (by decide) (by decide)
  refine ⟨hfm, fun hex => ?_⟩
  rw [processLine_file_missing cfg stack (linkFormLine ws fn path rest)
    (linkFormTok fn path) hdm hfm hex]

/-- C6 witness: re-processing the concrete converted line
`  - [User.java](core/User.java) — model` on an empty filesystem leaves
it unchanged. -/
theorem C6_idempotent_unless_relinked_witness :
    (processLine ⟨'/', "root".data, ⟨[], []⟩⟩ []
      (linkFormLine "  ".data "User.java".data "core/User.java".data " model".data)).out
      = linkFormLine "  ".data "User.java".data "core/User.java".data " model".data :=
  (C6_idempotent_unless_relinked ⟨'/', "root".data, ⟨[], []⟩⟩ [] "  ".data
    "User.java".data "core/User.java".data " model".data
    (by decide) (by decide) (by decide)).2 (by decide)

/-- C7: the rewrite splices at the first occurrence of the filename in
the raw line — no earlier position carries the filename — preserving the
text before and after that occurrence verbatim. -/
theorem C7_first_occurrence_splice :
    ∀ (cfg : Config) (stack : List (Nat × List Char)) (line fn : List Char),
      dirMatch (pyStrip line) = none →
      fileMatch (pyStrip line) = some fn →
      pathExists cfg.fs (candidateFull cfg stack (indentOf line) fn) = true →
      ∃ idx, pyFind line fn = some idx ∧
        fn.isPrefixOf (line.drop idx) = true ∧
        (∀ k < idx, fn.isPrefixOf (line.drop k) = false) ∧
        (processLine cfg stack line).out =
          line.take idx ++ ('[' :: fn) ++ (']' :: '(' ::
            bslashToSlash (candidateRel cfg stack (indentOf line) fn))
            ++ (')' :: line.drop (idx + fn.length)) := by
  intro cfg stack line fn hd hf hex
  obtain ⟨j, hj⟩ := fileMatch_line_occurs line fn hf
  obtain ⟨h1, h2⟩ := pyFind_spec line fn j hj
  exact ⟨j, hj, h1, h2,
    by rw [processLine_file_found cfg stack line fn j hd hf hex hj]⟩

/-- C7 witness: in `- a — a` the filename `a` also occurs in the
description; the splice happens at its first occurrence. -/
theorem C7_first_occurrence_splice_witness :
    ∃ idx, pyFind "- a — a".data "a".data = some idx ∧
      ("a".data).isPrefixOf ("- a — a".data.drop idx) = true ∧
      (∀ k < idx, ("a".data).isPrefixOf ("- a — a".data.drop k) = false) ∧
      (processLine ⟨'/', "root".data, ⟨["root/a".data], []⟩⟩ [] "- a — a".data).out =
        "- a — a".data.take idx ++ ('[' :: "a".data) ++ (']' :: '(' ::
          bslashToSlash (candidateRel ⟨'/', "root".data, ⟨["root/a".data], []⟩⟩ []
            (indentOf "- a — a".data) "a".data))
          ++ (')' :: "- a — a".data.drop (idx + ("a".data).length)) :=
  C7_first_occurrence_splice ⟨'/', "root".data, ⟨["root/a".data], []⟩⟩ []
    "- a — a".data "a".data (by decide) (by decide) (by decide)

/-- C8: classification tries the directory shape first: a directory line
only updates the stack and is emitted unchanged with no diagnostic,
even when it would also match the file-line regex. -/
theorem C8_dir_line_never_rewritten :
    ∀ (cfg : Config) (stack : List (Nat × List Char)) (line g : List Char),
      dirMatch (pyStrip line) = some g →
      (processLine cfg stack line).out = line ∧
      (processLine cfg stack line).diag = none ∧
      (processLine cfg stack line).stack =
        (indentOf line, rstripSlashes g) :: popStack (indentOf line) stack := by
  intro cfg stack line g h
  rw [processLine_dir cfg stack line g h]
  exact ⟨rfl, rfl, rfl⟩

/-- C8 witness: `- **core/** — the core` matches both regexes, its
candidate would even exist, yet it is classified as a directory and
passed through unchanged. -/
theorem C8_dir_line_never_rewritten_witness :
    dirMatch (pyStrip "- **core/** — the core".data) = some "core/".data ∧
    fileMatch (pyStrip "- **core/** — the core".data) = some "**core/**".data ∧
    (processLine ⟨'/', "root".data, ⟨["root/core".data], []⟩⟩ []
      "- **core/** — the core".data).out = "- **core/** — the core".data :=
  ⟨by decide, by decide,
    (C8_dir_line_never_rewritten ⟨'/', "root".data, ⟨["root/core".data], []⟩⟩ []
      "- **core/** — the core".data "core/".data (by decide)).1⟩

/-- C9: the loop appends exactly one output line per input line: the
output has the same length, and the i-th output line is produced from
the i-th input line under the stack accumulated over the first i
lines. -/
theorem C9_one_output_per_input :
    ∀ (cfg : Config) (stack : List (Nat × List Char)) (ls : List (List Char)),
      ((linkLines cfg stack ls).1).length = ls.length ∧
      ∀ i : Nat, ((linkLines cfg stack ls).1)[i]? =
        (ls[i]?).map (fun l =>
          (processLine cfg (stackAfterFrom cfg stack (ls.take i)) l).out) :=
  fun cfg stack ls => ⟨linkLines_len cfg stack ls, linkLines_getElem cfg stack ls⟩

/-- C9 witness: two lines in, two lines out, each produced positionally. -/
theorem C9_one_output_per_input_witness :
    ((linkLines ⟨'/', "root".data, ⟨[], []⟩⟩ [] ["hello".data, "- **a/**".data]).1).length
      = (["hello".data, "- **a/**".data] : List (List Char)).length :=
  (C9_one_output_per_input ⟨'/', "root".data, ⟨[], []⟩⟩ []
    ["hello".data, "- **a/**".data]).1

/-- C10: the existence check accepts directories as well as files, and a
file bullet naming an existing directory is still rewritten into a link
— file-ness is never verified. -/
theorem C10_exists_accepts_directories :
    (∀ (fs : FileSystem) (p : List Char), fs.dirs.contains p = true →
      pathExists fs p = true) ∧
    (runLinker ⟨'/', "root".data, ⟨[], ["root/docs".data]⟩⟩
      ["- docs — documentation folder".data]).1 =
      ["- [docs](docs) — documentation folder".data] := by
  constructor
  · intro fs p h
    unfold pathExists
    rw [h, Bool.or_true]
  · decide

/-- C10 witness: a path listed only among directories passes the
existence check. -/
theorem C10_exists_accepts_directories_witness :
    pathExists ⟨[], ["root/docs".data]⟩ "root/docs".data = true :=
  C10_exists_accepts_directories.1 ⟨[], ["root/docs".data]⟩ "root/docs".data (by decide)

end LinkifyInventory
